import Mathlib

/-!
Shallow embedding of the Yuanbao red-envelope hub service (`main.py`):
the codes table, the claims table, the process-wide list cache, and the
four route handlers `get_codes`, `get_user_stats`, `create_code`,
`claim_code`, modelled as pure transformers of an explicit state.
Each DB transaction is one atomic state update; every error path
returns the state unchanged (the handler either raised before writing
or rolled the session back).
-/

namespace Yuanbao

abbrev UserId := String
abbrev CodeId := String
abbrev DateStr := String

/-- `DAILY_POST_LIMIT = 5` (main.py line 24). -/
def DAILY_POST_LIMIT : Nat := 5

/-- `DAILY_CLAIM_LIMIT = 3` (main.py line 25). -/
def DAILY_CLAIM_LIMIT : Nat := 3

/-- `INITIAL_USES = 10` (main.py line 26). -/
def INITIAL_USES : Int := 10

/-- `MAX_LIST_LIMIT = 100` (main.py line 27). -/
def MAX_LIST_LIMIT : Nat := 100

/-- `CACHE_TTL = 3.0` seconds (main.py line 28). -/
def CACHE_TTL : Rat := 3

/-- A row of the `codes` table (class `CodeDB`, main.py lines 55-67). -/
structure CodeDB where
  id : CodeId
  content : String
  core_code : String
  creator_id : UserId
  remaining_uses : Int
  created_at : Rat
  date_str : DateStr
deriving DecidableEq

/-- A row of the `claims` table (class `ClaimDB`, main.py lines 69-80);
the table carries a uniqueness constraint on (`user_id`, `code_id`). -/
structure ClaimDB where
  id : Nat
  user_id : UserId
  code_id : CodeId
  claimed_at : Rat
  date_str : DateStr
deriving DecidableEq

/-- One entry of the cached listing (the dicts built in `get_codes`,
main.py lines 156-162); `createdAt` is milliseconds (`created_at * 1000`). -/
structure CacheRow where
  id : CodeId
  content : String
  remainingUses : Int
  createdAt : Rat
  creator_id : UserId
deriving DecidableEq

/-- The process-wide `LIST_CACHE` dict (main.py lines 90-93). -/
structure ListCache where
  data : List CacheRow
  timestamp : Rat
deriving DecidableEq

/-- The whole service state: both tables, the autoincrement counter for
`ClaimDB.id`, and the global list cache. -/
structure St where
  codes : List CodeDB
  claims : List ClaimDB
  nextClaimId : Nat
  cache : ListCache
deriving DecidableEq

/-- The error outcomes of the four handlers, named as in the spec. -/
inductive ApiError where
  | CodeNotFound
  | Exhausted
  | SelfClaimForbidden
  | ClaimQuotaExceeded
  | AlreadyClaimed
  | ClaimSystemBusy
  | InvalidFormat
  | PostQuotaExceeded
  | DuplicateCoreCode
  | DuplicateId
deriving DecidableEq

/-! ### The format validator

`re.search(r'[A-Z]{2}\d{4}\s[a-zA-Z0-9]+:\/[A-Z0-9]+', content)` at
main.py line 216, `.group(0)` at line 219.  The explicit-range classes
`[A-Z]`, `[a-zA-Z0-9]`, `[A-Z0-9]` are the listed ASCII code points,
but on a Python 3 `str` pattern `\d` and `\s` have Unicode semantics:
`\d` matches every character of Unicode category Nd (decimal digit)
and `\s` matches every Unicode whitespace character, so both are
embedded below by their full code-point range tables.  `re.search`
scans start positions left to right; at a given start this pattern is
deterministic maximal-munch, because each greedy class is followed by
a literal that the class excludes. -/

def isUpperAZ (c : Char) : Bool := 'A' ≤ c && c ≤ 'Z'

def isDigit09 (c : Char) : Bool := '0' ≤ c && c ≤ '9'

def isLowerAZ (c : Char) : Bool := 'a' ≤ c && c ≤ 'z'

def isAlnumC (c : Char) : Bool := isUpperAZ c || isLowerAZ c || isDigit09 c

def isUpperDigit (c : Char) : Bool := isUpperAZ c || isDigit09 c

/-- The code-point ranges matched by `\s` in a Python 3 `str` pattern
(`Py_UNICODE_ISSPACE`): ASCII whitespace, the C1 separators `\x1c-\x1f`,
NEL `\x85`, NBSP `\xa0`, and the Unicode space/line/paragraph
separators. -/
def wsRanges : List (Nat × Nat) :=
  [(0x9, 0xd), (0x1c, 0x20), (0x85, 0x85), (0xa0, 0xa0),
   (0x1680, 0x1680), (0x2000, 0x200a), (0x2028, 0x2029),
   (0x202f, 0x202f), (0x205f, 0x205f), (0x3000, 0x3000)]

/-- `\s` of the source regex: any Unicode whitespace character. -/
def isWsC (c : Char) : Bool :=
  wsRanges.any (fun r => r.1 ≤ c.toNat && c.toNat ≤ r.2)

/-- The code-point ranges of Unicode category Nd (decimal digit),
which is what `\d` matches in a Python 3 `str` pattern. -/
def ndRanges : List (Nat × Nat) :=
  [(0x30, 0x39), (0x660, 0x669), (0x6f0, 0x6f9), (0x7c0, 0x7c9),
   (0x966, 0x96f), (0x9e6, 0x9ef), (0xa66, 0xa6f), (0xae6, 0xaef),
   (0xb66, 0xb6f), (0xbe6, 0xbef), (0xc66, 0xc6f), (0xce6, 0xcef),
   (0xd66, 0xd6f), (0xde6, 0xdef), (0xe50, 0xe59), (0xed0, 0xed9),
   (0xf20, 0xf29), (0x1040, 0x1049), (0x1090, 0x1099),
   (0x17e0, 0x17e9), (0x1810, 0x1819), (0x1946, 0x194f),
   (0x19d0, 0x19d9), (0x1a80, 0x1a89), (0x1a90, 0x1a99),
   (0x1b50, 0x1b59), (0x1bb0, 0x1bb9), (0x1c40, 0x1c49),
   (0x1c50, 0x1c59), (0xa620, 0xa629), (0xa8d0, 0xa8d9),
   (0xa900, 0xa909), (0xa9d0, 0xa9d9), (0xa9f0, 0xa9f9),
   (0xaa50, 0xaa59), (0xabf0, 0xabf9), (0xff10, 0xff19),
   (0x104a0, 0x104a9), (0x10d30, 0x10d39), (0x11066, 0x1106f),
   (0x110f0, 0x110f9), (0x11136, 0x1113f), (0x111d0, 0x111d9),
   (0x112f0, 0x112f9), (0x11450, 0x11459), (0x114d0, 0x114d9),
   (0x11650, 0x11659), (0x116c0, 0x116c9), (0x11730, 0x11739),
   (0x118e0, 0x118e9), (0x11950, 0x11959), (0x11c50, 0x11c59),
   (0x11d50, 0x11d59), (0x11da0, 0x11da9), (0x16a60, 0x16a69),
   (0x16ac0, 0x16ac9), (0x16b50, 0x16b59), (0x1d7ce, 0x1d7ff),
   (0x1e140, 0x1e149), (0x1e2f0, 0x1e2f9), (0x1e950, 0x1e959),
   (0x1fbf0, 0x1fbf9)]

/-- `\d` of the source regex: any Unicode decimal digit. -/
def isDigitNd (c : Char) : Bool :=
  ndRanges.any (fun r => r.1 ≤ c.toNat && c.toNat ≤ r.2)

/-- Match the pattern anchored at the head of `l`; return the matched
run of characters (the whole match, `group(0)`). -/
def coreCodeAt : List Char → Option (List Char)
  | u1 :: u2 :: d1 :: d2 :: d3 :: d4 :: sp :: rest =>
    if isUpperAZ u1 && isUpperAZ u2 && isDigitNd d1 && isDigitNd d2 &&
        isDigitNd d3 && isDigitNd d4 && isWsC sp then
      match rest.takeWhile isAlnumC, rest.dropWhile isAlnumC with
      | _ :: _, ':' :: '/' :: rest3 =>
        match rest3.takeWhile isUpperDigit with
        | [] => none
        | t :: ts =>
          some ([u1, u2, d1, d2, d3, d4, sp] ++ rest.takeWhile isAlnumC ++
            [':', '/'] ++ (t :: ts))
      | _, _ => none
    else none
  | _ => none

/-- `re.search`: try every start position, leftmost first. -/
def coreCodeSearch : List Char → Option (List Char)
  | [] => none
  | c :: cs =>
    match coreCodeAt (c :: cs) with
    | some m => some m
    | none => coreCodeSearch cs

/-- The extracted `core_code` (main.py lines 216-219): `none` models the
`InvalidFormat` rejection. -/
def extract_core_code (content : String) : Option String :=
  (coreCodeSearch content.data).map (fun l => String.mk l)

/-! ### Query helpers (the session queries of the handlers) -/

/-- `db.query(CodeDB).filter(CodeDB.id == code_id).first()`. -/
def findCode (st : St) (code_id : CodeId) : Option CodeDB :=
  st.codes.find? (fun c => c.id == code_id)

/-- `db.query(CodeDB).filter(creator_id == uid, date_str == today).count()`. -/
def postCount (st : St) (uid : UserId) (today : DateStr) : Nat :=
  (st.codes.filter (fun c => c.creator_id == uid && c.date_str == today)).length

/-- `db.query(ClaimDB).filter(user_id == uid, date_str == today).count()`. -/
def claimCount (st : St) (uid : UserId) (today : DateStr) : Nat :=
  (st.claims.filter (fun cl => cl.user_id == uid && cl.date_str == today)).length

/-- Whether a (`uid`, `code_id`) claim row exists: the condition under
which the insert in `claim_code` hits the `uq_user_code_claim`
uniqueness constraint and raises `IntegrityError`. -/
def hasClaim (st : St) (uid : UserId) (code_id : CodeId) : Bool :=
  st.claims.any (fun cl => cl.user_id == uid && cl.code_id == code_id)

/-! ### Route handlers -/

/-- The JSON returned by a successful claim (main.py lines 298-303). -/
structure ClaimResult where
  id : CodeId
  remainingUses : Int
  isOwn : Bool
  isUsed : Bool
deriving DecidableEq

/-- The effect of `code.remaining_uses -= 1` on the row with the given
primary key (main.py line 287). -/
def applyDecrement (code_id : CodeId) (codes : List CodeDB) : List CodeDB :=
  codes.map (fun c =>
    if c.id == code_id then { c with remaining_uses := c.remaining_uses - 1 }
    else c)

/-- `POST /api/codes/{code_id}/claim` (main.py lines 252-303) as one
atomic transaction.  `today` is `get_today_str()` and `now` is the
`claimed_at` timestamp.  Every error branch leaves the state unchanged
(`db.rollback()`, or the handler raised before any write). -/
def claim_code (today : DateStr) (now : Rat) (code_id : CodeId)
    (x_user_id : UserId) (st : St) : Except ApiError ClaimResult × St :=
  match findCode st code_id with
  | none => (.error .CodeNotFound, st)
  | some code =>
    if code.remaining_uses ≤ 0 then (.error .Exhausted, st)
    else if code.creator_id == x_user_id then (.error .SelfClaimForbidden, st)
    else if DAILY_CLAIM_LIMIT ≤ claimCount st x_user_id today then
      (.error .ClaimQuotaExceeded, st)
    else if hasClaim st x_user_id code_id then (.error .AlreadyClaimed, st)
    else
      (.ok ⟨code_id, code.remaining_uses - 1, false, true⟩,
        { st with
          codes := applyDecrement code_id st.codes,
          claims := st.claims ++ [⟨st.nextClaimId, x_user_id, code_id, now, today⟩],
          nextClaimId := st.nextClaimId + 1 })

/-- The JSON returned by a successful creation (main.py lines 243-250). -/
structure CreateResult where
  id : CodeId
  content : String
  remainingUses : Int
  createdAt : Rat
  isOwn : Bool
  isUsed : Bool
deriving DecidableEq

/-- `POST /api/codes` (main.py lines 204-250).  Order as in the source:
post-quota check, then the regex, then the duplicate-`core_code` check,
then the insert; the commit may still raise `IntegrityError` on a
duplicate primary key (`DuplicateId`); only after a successful commit
is the cache timestamp forced to `0`. -/
def create_code (today : DateStr) (now : Rat) (id : CodeId) (content : String)
    (x_user_id : UserId) (st : St) : Except ApiError CreateResult × St :=
  if DAILY_POST_LIMIT ≤ postCount st x_user_id today then
    (.error .PostQuotaExceeded, st)
  else
    match extract_core_code content with
    | none => (.error .InvalidFormat, st)
    | some core_code =>
      if st.codes.any (fun c =>
          c.core_code == core_code && decide (0 < c.remaining_uses)) then
        (.error .DuplicateCoreCode, st)
      else if st.codes.any (fun c => c.id == id) then
        (.error .DuplicateId, st)
      else
        (.ok ⟨id, content, INITIAL_USES, now * 1000, true, false⟩,
          { st with
            codes := st.codes ++
              [⟨id, content, core_code, x_user_id, INITIAL_USES, now, today⟩],
            cache := { st.cache with timestamp := 0 } })

/-- The DB query of `get_codes` (main.py lines 148-154): rows with
`remaining_uses > 0`, ordered newest-created first, limited to 100,
then re-sorted oldest first on the Python side (line 154). -/
def listActive (codes : List CodeDB) : List CodeDB :=
  ((((codes.filter (fun c => decide (0 < c.remaining_uses))).mergeSort
      (fun a b => decide (b.created_at ≤ a.created_at))).take
    MAX_LIST_LIMIT).mergeSort
      (fun a b => decide (a.created_at ≤ b.created_at)))

/-- The dict cached per code (main.py lines 156-162). -/
def cacheRow (c : CodeDB) : CacheRow :=
  ⟨c.id, c.content, c.remaining_uses, c.created_at * 1000, c.creator_id⟩

/-- One entry of the listing response (main.py lines 178-184). -/
structure ListItem where
  id : CodeId
  content : String
  remainingUses : Int
  createdAt : Rat
  isOwn : Bool
  isUsed : Bool
deriving DecidableEq

/-- The per-caller personalization (main.py lines 170-184): `isOwn`
compares the creator, `isUsed` looks the code up among the caller's
claim rows. -/
def personalize (st : St) (uid : UserId) (r : CacheRow) : ListItem :=
  ⟨r.id, r.content, r.remainingUses, r.createdAt, r.creator_id == uid,
    hasClaim st uid r.id⟩

/-- `GET /api/codes` (main.py lines 133-186): serve the cached snapshot
while it is younger than `CACHE_TTL`, otherwise recompute it from the
store and stamp it with `now`; personalization is applied on every
read, never cached. -/
def get_codes (now : Rat) (x_user_id : UserId) (st : St) :
    List ListItem × St :=
  if now - st.cache.timestamp < CACHE_TTL then
    ((st.cache.data).map (personalize st x_user_id), st)
  else
    let codes_data := (listActive st.codes).map cacheRow
    (codes_data.map (personalize st x_user_id),
      { st with cache := { data := codes_data, timestamp := now } })

/-- The JSON of `GET /api/user/stats` (main.py lines 188-202). -/
structure StatsResult where
  todayPostCount : Nat
  todayClaimCount : Nat
  postLimit : Nat
  claimLimit : Nat
deriving DecidableEq

/-- `GET /api/user/stats` (main.py lines 188-202); read-only. -/
def get_user_stats (today : DateStr) (x_user_id : UserId) (st : St) :
    StatsResult :=
  ⟨postCount st x_user_id today, claimCount st x_user_id today,
    DAILY_POST_LIMIT, DAILY_CLAIM_LIMIT⟩

/-! ### Reachable states -/

/-- One request to the service, with the wall-clock values the handler
would read. -/
inductive Op where
  | create (today : DateStr) (now : Rat) (id : CodeId) (content : String)
      (uid : UserId)
  | claim (today : DateStr) (now : Rat) (code_id : CodeId) (uid : UserId)
  | list (now : Rat) (uid : UserId)
  | stats (today : DateStr) (uid : UserId)

/-- The state after serving one request. -/
def Op.step (st : St) : Op → St
  | .create today now id content uid => (create_code today now id content uid st).2
  | .claim today now code_id uid => (claim_code today now code_id uid st).2
  | .list now uid => (get_codes now uid st).2
  | .stats _ _ => st

/-- The fresh service state: empty tables, empty cache stamped `0`. -/
def initSt : St := ⟨[], [], 1, ⟨[], 0⟩⟩

/-- States reachable from the fresh state by any sequence of requests. -/
inductive Reachable : St → Prop where
  | init : Reachable initSt
  | step (st : St) (op : Op) : Reachable st → Reachable (Op.step st op)

/-- A batch of claim requests for one code, one per listed user, served
in arrival order; each request is one atomic transaction, so an
interleaving of concurrent claimants is an ordering of the batch. -/
def claimsRun (today : DateStr) (now : Rat) (code_id : CodeId) :
    List UserId → St → List (Except ApiError ClaimResult) × St
  | [], st => ([], st)
  | u :: us, st =>
    let r := claim_code today now code_id u st
    let rest := claimsRun today now code_id us r.2
    (r.1 :: rest.1, rest.2)

/-- The store invariants every handler maintains: no `remaining_uses`
is negative, and the primary keys of `codes` are pairwise distinct. -/
def CodesInv (st : St) : Prop :=
  (∀ c ∈ st.codes, 0 ≤ c.remaining_uses) ∧
  st.codes.Pairwise (fun a b => a.id ≠ b.id)

/-! ### Concrete states used to instantiate the theorems -/

/-- A state with one fresh code published by user `A`. -/
def stW : St :=
  ⟨[⟨"c1", "AB1234 x:/CODE1", "AB1234 x:/CODE1", "A", 10, 0, "d1"⟩], [], 1,
    ⟨[], 0⟩⟩

/-- The code row sitting in `stW`. -/
def cW : CodeDB := ⟨"c1", "AB1234 x:/CODE1", "AB1234 x:/CODE1", "A", 10, 0, "d1"⟩

/-- A state whose only code, published by user `A`, is exhausted. -/
def stExh : St :=
  ⟨[⟨"c1", "AB1234 x:/CODE1", "AB1234 x:/CODE1", "A", 0, 0, "d1"⟩], [], 1,
    ⟨[], 0⟩⟩

/-- A state whose only code, published by user `A`, has one use left. -/
def stOne : St :=
  ⟨[⟨"c1", "AB1234 x:/CODE1", "AB1234 x:/CODE1", "A", 1, 0, "d1"⟩], [], 1,
    ⟨[], 0⟩⟩

/-- A state in which user `A` has already posted 5 codes today. -/
def stQuota : St :=
  ⟨[⟨"p1", "x", "x", "A", 10, 0, "d1"⟩, ⟨"p2", "x", "x", "A", 10, 0, "d1"⟩,
    ⟨"p3", "x", "x", "A", 10, 0, "d1"⟩, ⟨"p4", "x", "x", "A", 10, 0, "d1"⟩,
    ⟨"p5", "x", "x", "A", 10, 0, "d1"⟩], [], 1, ⟨[], 0⟩⟩

/-- The shape of a core code as the pattern actually matches it: two
uppercase ASCII letters, four Unicode decimal digits (`\d`), one
Unicode whitespace character (`\s`), a nonempty run of ASCII
alphanumerics, `:`, `/`, a nonempty run of ASCII uppercase-or-digit
characters. -/
def IsCoreShape (w : List Char) : Prop :=
  ∃ u1 u2 d1 d2 d3 d4 sp mid tail,
    w = u1 :: u2 :: d1 :: d2 :: d3 :: d4 :: sp ::
      (mid ++ ':' :: '/' :: tail) ∧
    isUpperAZ u1 = true ∧ isUpperAZ u2 = true ∧
    isDigitNd d1 = true ∧ isDigitNd d2 = true ∧
    isDigitNd d3 = true ∧ isDigitNd d4 = true ∧
    isWsC sp = true ∧
    mid ≠ [] ∧ (∀ c ∈ mid, isAlnumC c = true) ∧
    tail ≠ [] ∧ (∀ c ∈ tail, isUpperDigit c = true)

/-- The shape with the spec's literal "a space" in the seventh
position, as the claim words it. -/
def IsCoreShapeSpace (w : List Char) : Prop :=
  ∃ u1 u2 d1 d2 d3 d4 mid tail,
    w = u1 :: u2 :: d1 :: d2 :: d3 :: d4 :: ' ' ::
      (mid ++ ':' :: '/' :: tail) ∧
    isUpperAZ u1 = true ∧ isUpperAZ u2 = true ∧
    isDigit09 d1 = true ∧ isDigit09 d2 = true ∧
    isDigit09 d3 = true ∧ isDigit09 d4 = true ∧
    mid ≠ [] ∧ (∀ c ∈ mid, isAlnumC c = true) ∧
    tail ≠ [] ∧ (∀ c ∈ tail, isUpperDigit c = true)

/-! ### Helper lemmas -/

theorem find?_map_id (f : CodeDB → CodeDB) (hf : ∀ c, (f c).id = c.id)
    (cid : CodeId) (l : List CodeDB) :
    (l.map f).find? (fun c => c.id == cid) =
      (l.find? (fun c => c.id == cid)).map f := by
  induction l with
  | nil => rfl
  | cons a l ih =>
    simp only [List.map_cons, List.find?_cons, hf a]
    cases a.id == cid
    · simpa using ih
    · rfl

theorem claimCount_claims_append {st st' : St} {row : ClaimDB}
    {uid : UserId} {today : DateStr}
    (h : st'.claims = st.claims ++ [row]) (hne : row.user_id ≠ uid) :
    claimCount st' uid today = claimCount st uid today := by
  simp [claimCount, h, List.filter_append, hne]

theorem hasClaim_claims_append {st st' : St} {row : ClaimDB}
    {uid : UserId} {cid : CodeId}
    (h : st'.claims = st.claims ++ [row]) (hne : row.user_id ≠ uid) :
    hasClaim st' uid cid = hasClaim st uid cid := by
  simp [hasClaim, h, List.any_append, hne]

theorem hasClaim_claims_append_self {st st' : St} {row : ClaimDB}
    {uid : UserId} {cid : CodeId}
    (h : st'.claims = st.claims ++ [row]) (hu : row.user_id = uid)
    (hc : row.code_id = cid) :
    hasClaim st' uid cid = true := by
  simp [hasClaim, h, List.any_append, hu, hc]

theorem claimCount_claims_append_self {st st' : St} {row : ClaimDB}
    {uid : UserId} {today : DateStr}
    (h : st'.claims = st.claims ++ [row]) (hu : row.user_id = uid)
    (hd : row.date_str = today) :
    claimCount st' uid today = claimCount st uid today + 1 := by
  simp [claimCount, h, List.filter_append, hu, hd]

/-- Decrementing the claimed row commutes with looking it up. -/
theorem findCode_applyDecrement {st st' : St} {cid : CodeId} {code : CodeDB}
    (hfind : findCode st cid = some code)
    (hcodes : st'.codes = applyDecrement cid st.codes) :
    findCode st' cid =
      some { code with remaining_uses := code.remaining_uses - 1 } := by
  have hfind' : st.codes.find? (fun c => c.id == cid) = some code := hfind
  have hid : (code.id == cid) = true :=
    @List.find?_some CodeDB (fun c => c.id == cid) code st.codes hfind'
  have hfpres : ∀ c : CodeDB,
      ((fun c => if c.id == cid then
        { c with remaining_uses := c.remaining_uses - 1 } else c) c).id =
      c.id := by
    intro c
    by_cases hc : c.id == cid <;> simp [hc]
  show st'.codes.find? (fun c => c.id == cid) = _
  rw [hcodes]
  unfold applyDecrement
  rw [find?_map_id _ hfpres, hfind']
  have hideq : code.id = cid := by simpa using hid
  simp [hideq]

/-- Exhaustive case analysis of one claim transaction: either it fails
and the state is untouched, or all four checks passed, the claim row
was inserted and the counter decremented. -/
theorem claim_code_cases (today : DateStr) (now : Rat) (cid : CodeId)
    (uid : UserId) (st : St) :
    (∃ e, claim_code today now cid uid st = (.error e, st)) ∨
    (∃ code, findCode st cid = some code ∧ 0 < code.remaining_uses ∧
      code.creator_id ≠ uid ∧ claimCount st uid today < DAILY_CLAIM_LIMIT ∧
      hasClaim st uid cid = false ∧
      claim_code today now cid uid st =
        (.ok ⟨cid, code.remaining_uses - 1, false, true⟩,
          { st with
            codes := applyDecrement cid st.codes,
            claims := st.claims ++ [⟨st.nextClaimId, uid, cid, now, today⟩],
            nextClaimId := st.nextClaimId + 1 })) := by
  unfold claim_code
  split
  · exact .inl ⟨_, rfl⟩
  next code hfind =>
    split
    · exact .inl ⟨_, rfl⟩
    next hle =>
      split
      · exact .inl ⟨_, rfl⟩
      next hcr =>
        split
        · exact .inl ⟨_, rfl⟩
        next hq =>
          split
          · exact .inl ⟨_, rfl⟩
          next hhc =>
            refine .inr ⟨code, hfind, by omega, ?_, by omega, ?_, rfl⟩
            · simpa using hcr
            · simpa using hhc

/-- A failed claim leaves the state untouched. -/
theorem claim_code_error_state {today : DateStr} {now : Rat} {cid : CodeId}
    {uid : UserId} {st st' : St} {e : ApiError}
    (h : claim_code today now cid uid st = (.error e, st')) : st' = st := by
  rcases claim_code_cases today now cid uid st with ⟨e', he⟩ |
    ⟨code, _, _, _, _, _, hok⟩
  · rw [he] at h
    exact (congrArg Prod.snd h).symm
  · rw [hok] at h
    exact absurd (congrArg Prod.fst h) (by simp)

/-- A successful claim: all checks passed, the result echoes the
post-decrement counter, the claim row is appended, the counter of the
claimed row is decremented. -/
theorem claim_code_ok_char {today : DateStr} {now : Rat} {cid : CodeId}
    {uid : UserId} {st st' : St} {r : ClaimResult}
    (h : claim_code today now cid uid st = (.ok r, st')) :
    ∃ code, findCode st cid = some code ∧ 0 < code.remaining_uses ∧
      code.creator_id ≠ uid ∧ claimCount st uid today < DAILY_CLAIM_LIMIT ∧
      hasClaim st uid cid = false ∧
      r = ⟨cid, code.remaining_uses - 1, false, true⟩ ∧
      st' = { st with
        codes := applyDecrement cid st.codes,
        claims := st.claims ++ [⟨st.nextClaimId, uid, cid, now, today⟩],
        nextClaimId := st.nextClaimId + 1 } := by
  rcases claim_code_cases today now cid uid st with ⟨e', he⟩ |
    ⟨code, hfind, hpos, hcr, hq, hhc, hok⟩
  · rw [he] at h
    exact absurd (congrArg Prod.fst h) (by simp)
  · rw [hok] at h
    simp only [Prod.mk.injEq, Except.ok.injEq] at h
    exact ⟨code, hfind, hpos, hcr, hq, hhc, h.1.symm, h.2.symm⟩

/-- Exhaustive case analysis of one create request. -/
theorem create_code_cases (today : DateStr) (now : Rat) (id : CodeId)
    (content : String) (uid : UserId) (st : St) :
    (∃ e, create_code today now id content uid st = (.error e, st)) ∨
    (∃ core_code, extract_core_code content = some core_code ∧
      postCount st uid today < DAILY_POST_LIMIT ∧
      st.codes.any (fun c =>
        c.core_code == core_code && decide (0 < c.remaining_uses)) = false ∧
      st.codes.any (fun c => c.id == id) = false ∧
      create_code today now id content uid st =
        (.ok ⟨id, content, INITIAL_USES, now * 1000, true, false⟩,
          { st with
            codes := st.codes ++
              [⟨id, content, core_code, uid, INITIAL_USES, now, today⟩],
            cache := { st.cache with timestamp := 0 } })) := by
  unfold create_code
  split
  · exact .inl ⟨_, rfl⟩
  next hq =>
    split
    · exact .inl ⟨_, rfl⟩
    next core hcore =>
      split
      · exact .inl ⟨_, rfl⟩
      next hdup =>
        split
        · exact .inl ⟨_, rfl⟩
        next hid =>
          refine .inr ⟨core, hcore, by omega, ?_, ?_, rfl⟩
          · simpa using hdup
          · simpa using hid

/-- A failed create request leaves the state untouched: no code row is
inserted and the cache (data and timestamp) is unchanged. -/
theorem create_code_error_state {today : DateStr} {now : Rat} {id : CodeId}
    {content : String} {uid : UserId} {st st' : St} {e : ApiError}
    (h : create_code today now id content uid st = (.error e, st')) :
    st' = st := by
  rcases create_code_cases today now id content uid st with ⟨e', he⟩ |
    ⟨core, _, _, _, _, hok⟩
  · rw [he] at h
    exact (congrArg Prod.snd h).symm
  · rw [hok] at h
    exact absurd (congrArg Prod.fst h) (by simp)

/-- A successful create request appends exactly one code row, carrying
the initial allowance, and stamps the cache with `0`. -/
theorem create_code_ok_char {today : DateStr} {now : Rat} {id : CodeId}
    {content : String} {uid : UserId} {st st' : St} {r : CreateResult}
    (h : create_code today now id content uid st = (.ok r, st')) :
    ∃ core_code, extract_core_code content = some core_code ∧
      postCount st uid today < DAILY_POST_LIMIT ∧
      st.codes.any (fun c => c.id == id) = false ∧
      r = ⟨id, content, INITIAL_USES, now * 1000, true, false⟩ ∧
      st' = { st with
        codes := st.codes ++
          [⟨id, content, core_code, uid, INITIAL_USES, now, today⟩],
        cache := { st.cache with timestamp := 0 } } := by
  rcases create_code_cases today now id content uid st with ⟨e', he⟩ |
    ⟨core, hcore, hq, hdup, hid, hok⟩
  · rw [he] at h
    exact absurd (congrArg Prod.fst h) (by simp)
  · rw [hok] at h
    simp only [Prod.mk.injEq, Except.ok.injEq] at h
    exact ⟨core, hcore, hq, hid, h.1.symm, h.2.symm⟩

/-- In a list of codes with pairwise-distinct primary keys, any member
whose `id` matches a `find?` by that `id` is the found row itself. -/
theorem find?_mem_eq {l : List CodeDB} {cid : CodeId} {c₀ : CodeDB}
    (hp : l.Pairwise (fun a b => a.id ≠ b.id))
    (hf : l.find? (fun c => c.id == cid) = some c₀) :
    ∀ c ∈ l, c.id = cid → c = c₀ := by
  induction l with
  | nil => simp at hf
  | cons a l ih =>
    rcases List.pairwise_cons.mp hp with ⟨ha, hp'⟩
    rw [List.find?_cons] at hf
    intro c hc hcid
    by_cases h : a.id = cid
    · simp only [h, beq_self_eq_true] at hf
      simp only [Option.some.injEq] at hf
      rcases List.mem_cons.mp hc with rfl | hcl
      · exact hf
      · exact absurd (h.trans hcid.symm) (ha c hcl)
    · simp only [beq_eq_false_iff_ne.mpr h] at hf
      rcases List.mem_cons.mp hc with rfl | hcl
      · exact absurd hcid h
      · exact ih hp' hf c hcl hcid

theorem codesInv_step (st : St) (op : Op) (h : CodesInv st) :
    CodesInv (Op.step st op) := by
  obtain ⟨hpos, hpk⟩ := h
  cases op with
  | stats today uid => exact ⟨hpos, hpk⟩
  | list now uid =>
    have hkeep : (get_codes now uid st).2.codes = st.codes := by
      unfold get_codes
      split <;> rfl
    exact ⟨fun c hc => hpos c (hkeep ▸ hc), hkeep ▸ hpk⟩
  | create today now id content uid =>
    show CodesInv (create_code today now id content uid st).2
    rcases create_code_cases today now id content uid st with ⟨e, he⟩ |
      ⟨core, _, _, _, hid, hok⟩
    · rw [he]
      exact ⟨hpos, hpk⟩
    · rw [hok]
      have hfresh : ∀ c ∈ st.codes, c.id ≠ id := by
        simpa using hid
      constructor
      · intro c hc
        rcases List.mem_append.mp hc with h1 | h2
        · exact hpos c h1
        · rw [List.mem_singleton.mp h2]
          simp [INITIAL_USES]
      · rw [List.pairwise_append]
        refine ⟨hpk, by simp, ?_⟩
        intro a ha b hb
        rw [List.mem_singleton.mp hb]
        exact hfresh a ha
  | claim today now cid uid =>
    show CodesInv (claim_code today now cid uid st).2
    rcases claim_code_cases today now cid uid st with ⟨e, he⟩ |
      ⟨code, hfind, hcpos, _, _, _, hok⟩
    · rw [he]
      exact ⟨hpos, hpk⟩
    · rw [hok]
      have hfind' : st.codes.find? (fun c => c.id == cid) = some code := hfind
      have hid : (code.id == cid) = true :=
        @List.find?_some CodeDB (fun c => c.id == cid) code st.codes hfind'
      have huniq := find?_mem_eq hpk hfind'
      have hfid : ∀ x : CodeDB,
          ((fun c => if c.id == cid then
            { c with remaining_uses := c.remaining_uses - 1 } else c) x).id =
          x.id := by
        intro x
        by_cases hx : x.id == cid <;> simp [hx]
      constructor
      · intro c' hc'
        unfold applyDecrement at hc'
        rcases List.mem_map.mp hc' with ⟨c, hc, rfl⟩
        by_cases hcc : c.id = cid
        · have hbt : (c.id == cid) = true := by simp [hcc]
          rw [if_pos hbt]
          show (0 : Int) ≤ c.remaining_uses - 1
          rw [huniq c hc hcc]
          omega
        · rw [if_neg (show ¬ (c.id == cid) = true by simp [hcc])]
          exact hpos c hc
      · unfold applyDecrement
        rw [List.pairwise_map]
        refine hpk.imp ?_
        intro a b hab
        rw [hfid a, hfid b]
        exact hab

/-- Every reachable state satisfies the store invariants. -/
theorem reachable_codesInv (st : St) (h : Reachable st) : CodesInv st := by
  induction h with
  | init =>
    exact ⟨by simp [initSt], by simp [initSt]⟩
  | step st' op _ ih => exact codesInv_step st' op ih

/-! ### The claims -/

/-- C1: for every claim(codeId, userId) request the checks run in the
order CodeNotFound, Exhausted, SelfClaimForbidden, ClaimQuotaExceeded
(daily limit 3), and the first failing one determines the error; on
success a claim row is inserted, the code's `remaining_uses` drops by
exactly one, and the result is the code id, the post-decrement counter
and the fixed flags `isOwn = false`, `isUsed = true`. -/
theorem C1_claim_check_order (today : DateStr) (now : Rat) (cid : CodeId)
    (uid : UserId) (st : St) :
    (findCode st cid = none →
      claim_code today now cid uid st = (.error .CodeNotFound, st)) ∧
    (∀ code, findCode st cid = some code →
      (code.remaining_uses ≤ 0 →
        claim_code today now cid uid st = (.error .Exhausted, st)) ∧
      (0 < code.remaining_uses → code.creator_id = uid →
        claim_code today now cid uid st = (.error .SelfClaimForbidden, st)) ∧
      (0 < code.remaining_uses → code.creator_id ≠ uid →
        DAILY_CLAIM_LIMIT ≤ claimCount st uid today →
        claim_code today now cid uid st = (.error .ClaimQuotaExceeded, st)) ∧
      (0 < code.remaining_uses → code.creator_id ≠ uid →
        claimCount st uid today < DAILY_CLAIM_LIMIT →
        hasClaim st uid cid = false →
        claim_code today now cid uid st =
          (.ok ⟨cid, code.remaining_uses - 1, false, true⟩,
            { st with
              codes := applyDecrement cid st.codes,
              claims := st.claims ++ [⟨st.nextClaimId, uid, cid, now, today⟩],
              nextClaimId := st.nextClaimId + 1 }))) := by
  constructor
  · intro h
    simp [claim_code, h]
  · intro code h
    refine ⟨fun hle => ?_, fun hpos hcr => ?_, fun hpos hcr hq => ?_,
      fun hpos hcr hq hhc => ?_⟩
    · simp [claim_code, h, hle]
    · simp [claim_code, h, not_le.mpr hpos, hcr]
    · simp [claim_code, h, not_le.mpr hpos, hcr, hq]
    · simp [claim_code, h, not_le.mpr hpos, hcr, not_le.mpr hq, hhc]

/-- Witness for C1: a fresh user claims the fresh code in `stW`. -/
theorem C1_claim_check_order_witness :
    claim_code ("d1") 5 ("c1") ("B") stW =
      (.ok ⟨"c1", 9, false, true⟩,
        ⟨[⟨"c1", "AB1234 x:/CODE1", "AB1234 x:/CODE1", "A", 9, 0, "d1"⟩],
          [⟨1, "B", "c1", 5, "d1"⟩], 2, ⟨[], 0⟩⟩) := by
  have h := ((C1_claim_check_order ("d1") 5 ("c1") ("B") stW).2 cW rfl).2.2.2
    (by decide) (by decide) (by decide) (by rfl)
  exact h.trans (by rfl)

/-- C3: on every state reachable by any sequence of create / claim /
list / stats requests, every code satisfies `remaining_uses >= 0`;
moreover a successfully created code starts at the fixed initial
allowance 10, and a claim on a code with `remaining_uses <= 0` fails
with `Exhausted` without modifying anything. -/
theorem C3_remaining_uses_nonneg :
    (∀ st, Reachable st → ∀ c ∈ st.codes, 0 ≤ c.remaining_uses) ∧
    (∀ today now id content uid st r st',
      create_code today now id content uid st = (.ok r, st') →
      ∃ core_code, st'.codes = st.codes ++
        [⟨id, content, core_code, uid, INITIAL_USES, now, today⟩]) ∧
    (∀ today now cid uid st code, findCode st cid = some code →
      code.remaining_uses ≤ 0 →
      claim_code today now cid uid st = (.error .Exhausted, st)) := by
  refine ⟨fun st h => (reachable_codesInv st h).1, ?_, ?_⟩
  · intro today now id content uid st r st' h
    obtain ⟨core, _, _, _, _, hst⟩ := create_code_ok_char h
    exact ⟨core, by rw [hst]⟩
  · intro today now cid uid st code h hle
    simp [claim_code, h, hle]

/-- Witness for C3: the state reached from the fresh service by one
successful create request contains only nonnegative counters. -/
theorem C3_remaining_uses_nonneg_witness :
    (0 : Int) ≤ cW.remaining_uses :=
  C3_remaining_uses_nonneg.1
    (Op.step initSt (Op.create ("d1") 0 ("c1") ("AB1234 x:/CODE1") ("A")))
    (Reachable.step initSt (Op.create ("d1") 0 ("c1") ("AB1234 x:/CODE1") ("A"))
      Reachable.init)
    cW (by exact List.mem_singleton.mpr rfl)

/-- The batch-claim induction: if the claimed code holds `k` uses and
every user of the duplicate-free batch is a fresh claimant — not the
creator, no prior claim row for this code, under the daily quota — then
exactly `min N k` of the `N` requests succeed, every failed request
observes `Exhausted`, and the code ends with `k - min N k` uses. -/
theorem claimsRun_spec (today : DateStr) (now : Rat) (cid : CodeId) :
    ∀ (users : List UserId) (st : St) (code : CodeDB) (k : Nat),
      findCode st cid = some code →
      code.remaining_uses = (k : Int) →
      users.Nodup →
      (∀ u ∈ users, u ≠ code.creator_id ∧ hasClaim st u cid = false ∧
        claimCount st u today < DAILY_CLAIM_LIMIT) →
      ((claimsRun today now cid users st).1.countP Except.isOk =
          min users.length k) ∧
      ((claimsRun today now cid users st).1.length = users.length) ∧
      (∀ o ∈ (claimsRun today now cid users st).1,
        Except.isOk o = false → o = Except.error ApiError.Exhausted) ∧
      (∃ code', findCode (claimsRun today now cid users st).2 cid =
          some code' ∧ code'.creator_id = code.creator_id ∧
        code'.remaining_uses = (k : Int) - (min users.length k : Nat)) := by
  intro users
  induction users with
  | nil =>
    intro st code k hfind hrem _ _
    refine ⟨by simp [claimsRun], by simp [claimsRun], by simp [claimsRun],
      code, by simp [claimsRun, hfind], rfl, ?_⟩
    simp [hrem]
  | cons u us ih =>
    intro st code k hfind hrem hnd hprops
    obtain ⟨hune, huhc, huq⟩ := hprops u (List.mem_cons_self u us)
    have hndtail : us.Nodup := (List.nodup_cons.mp hnd).2
    have hunotin : u ∉ us := (List.nodup_cons.mp hnd).1
    cases k with
    | zero =>
      have hfail : claim_code today now cid u st =
          (.error .Exhausted, st) := by
        simp [claim_code, hfind, hrem]
      obtain ⟨ihc, ihl, ihf, code', ihfind, ihcr, ihrem⟩ :=
        ih st code 0 hfind hrem hndtail
          (fun v hv => hprops v (List.mem_cons_of_mem u hv))
      have hrun : claimsRun today now cid (u :: us) st =
          (Except.error ApiError.Exhausted ::
            (claimsRun today now cid us st).1,
            (claimsRun today now cid us st).2) := by
        simp [claimsRun, hfail]
      rw [hrun]
      have hhead : Except.isOk
          (Except.error ApiError.Exhausted : Except ApiError ClaimResult) =
          false := rfl
      refine ⟨?_, ?_, ?_, code', ihfind, ihcr, ?_⟩
      · rw [List.countP_cons, ihc, hhead]
        simp
      · simp [ihl]
      · intro o ho hno
        rcases List.mem_cons.mp ho with rfl | h2
        · rfl
        · exact ihf o h2 hno
      · simpa using ihrem
    | succ n =>
      have hpos : ¬ code.remaining_uses ≤ 0 := by
        rw [hrem]
        push_cast
        omega
      have hcrne : code.creator_id ≠ u := fun h => hune h.symm
      set stN : St := { st with
        codes := applyDecrement cid st.codes,
        claims := st.claims ++ [⟨st.nextClaimId, u, cid, now, today⟩],
        nextClaimId := st.nextClaimId + 1 } with hstN
      have hok : claim_code today now cid u st =
          (.ok ⟨cid, code.remaining_uses - 1, false, true⟩, stN) := by
        simp [claim_code, hfind, hpos, hcrne, not_le.mpr huq, huhc, hstN]
      have hfind1 : findCode stN cid =
          some { code with remaining_uses := code.remaining_uses - 1 } :=
        findCode_applyDecrement hfind (by rw [hstN])
      have hrem1 : ({ code with
          remaining_uses := code.remaining_uses - 1 } :
          CodeDB).remaining_uses = (n : Int) := by
        show code.remaining_uses - 1 = (n : Int)
        rw [hrem]
        push_cast
        ring
      have hprops1 : ∀ v ∈ us,
          v ≠ ({ code with
            remaining_uses := code.remaining_uses - 1 } :
            CodeDB).creator_id ∧
          hasClaim stN v cid = false ∧
          claimCount stN v today < DAILY_CLAIM_LIMIT := by
        intro v hv
        obtain ⟨h1, h2, h3⟩ := hprops v (List.mem_cons_of_mem u hv)
        have hvu : v ≠ u := fun h => hunotin (h ▸ hv)
        have hrowne : (⟨st.nextClaimId, u, cid, now, today⟩ :
            ClaimDB).user_id ≠ v := fun h => hvu h.symm
        have hcl : stN.claims =
            st.claims ++ [⟨st.nextClaimId, u, cid, now, today⟩] := by
          rw [hstN]
        refine ⟨h1, ?_, ?_⟩
        · rw [hasClaim_claims_append hcl hrowne]
          exact h2
        · rw [claimCount_claims_append hcl hrowne]
          exact h3
      obtain ⟨ihc, ihl, ihf, code', ihfind, ihcr, ihrem⟩ :=
        ih stN { code with remaining_uses := code.remaining_uses - 1 } n
          hfind1 hrem1 hndtail hprops1
      have hrun : claimsRun today now cid (u :: us) st =
          ((Except.ok ⟨cid, code.remaining_uses - 1, false, true⟩ :
              Except ApiError ClaimResult) ::
            (claimsRun today now cid us stN).1,
            (claimsRun today now cid us stN).2) := by
        simp [claimsRun, hok]
      rw [hrun]
      have hhead : Except.isOk
          (Except.ok ⟨cid, code.remaining_uses - 1, false, true⟩ :
            Except ApiError ClaimResult) = true := rfl
      refine ⟨?_, ?_, ?_, code', ihfind, ihcr, ?_⟩
      · rw [List.countP_cons, ihc, hhead]
        simp [Nat.succ_min_succ]
      · simp [ihl]
      · intro o ho hno
        rcases List.mem_cons.mp ho with rfl | h2
        · rw [hhead] at hno
          exact absurd hno (by simp)
        · exact ihf o h2 hno
      · rw [ihrem]
        simp only [List.length_cons, Nat.succ_min_succ]
        generalize us.length ⊓ n = m
        push_cast
        ring

/-- C4 fails on the code: with `remaining_uses = 1`, two claims by the
same identity — in either of the two interleavings of the two atomic
claim transactions — yield one success and one `Exhausted`, not
`AlreadyClaimed`, because the first claim exhausts the code and the
Exhausted check precedes the duplicate-claim detection. -/
theorem C4_concurrency_counterexample :
    (claimsRun ("d1") 5 ("c1") ["B", "B"] stOne).1 =
      [Except.ok ⟨"c1", 0, false, true⟩,
        Except.error ApiError.Exhausted] ∧
    ApiError.Exhausted ≠ ApiError.AlreadyClaimed :=
  ⟨by rfl, by decide⟩

/-- C4 (amended), with the concurrent transactions serialized at their
commit points (the store's transaction/lock makes each claim atomic):
(1) for a code with `remaining_uses = k` and `N > k` claims by
pairwise-distinct fresh claimants — none the creator, none with a prior
claim row on the code, all under the daily quota — exactly `k` succeed,
every one of the `N - k` failures observes `Exhausted`, and the final
`remaining_uses` is 0; (2) for two claims by the same identity, if the
first claim leaves the code unexhausted and the claimant under quota,
the first succeeds, the second fails with `AlreadyClaimed`, and
`remaining_uses` drops by exactly one, not two. -/
theorem C4_concurrent_claims :
    (∀ today now cid st code (k : Nat) users,
      findCode st cid = some code →
      code.remaining_uses = (k : Int) →
      users.Nodup →
      (∀ u ∈ users, u ≠ code.creator_id ∧ hasClaim st u cid = false ∧
        claimCount st u today < DAILY_CLAIM_LIMIT) →
      k < users.length →
      ((claimsRun today now cid users st).1.countP Except.isOk = k) ∧
      ((claimsRun today now cid users st).1.length = users.length) ∧
      (∀ o ∈ (claimsRun today now cid users st).1,
        Except.isOk o = false → o = Except.error ApiError.Exhausted) ∧
      (∃ code', findCode (claimsRun today now cid users st).2 cid =
        some code' ∧ code'.remaining_uses = 0)) ∧
    (∀ today now cid uid st code,
      findCode st cid = some code →
      2 ≤ code.remaining_uses →
      code.creator_id ≠ uid →
      hasClaim st uid cid = false →
      claimCount st uid today + 1 < DAILY_CLAIM_LIMIT →
      ∃ r st₁, claim_code today now cid uid st = (.ok r, st₁) ∧
        claim_code today now cid uid st₁ = (.error .AlreadyClaimed, st₁) ∧
        ∃ code', findCode st₁ cid = some code' ∧
          code'.remaining_uses = code.remaining_uses - 1) := by
  constructor
  · intro today now cid st code k users hfind hrem hnd hprops hk
    obtain ⟨hc, hl, hf, code', hfind', _, hrem'⟩ :=
      claimsRun_spec today now cid users st code k hfind hrem hnd hprops
    have hmin : min users.length k = k := Nat.min_eq_right (Nat.le_of_lt hk)
    refine ⟨by rw [hc, hmin], hl, hf, code', hfind', ?_⟩
    rw [hrem', hmin]
    ring
  · intro today now cid uid st code hfind h2 hcrne hhc hq
    have hpos : ¬ code.remaining_uses ≤ 0 := by omega
    have hq1 : claimCount st uid today < DAILY_CLAIM_LIMIT := by omega
    set stN : St := { st with
      codes := applyDecrement cid st.codes,
      claims := st.claims ++ [⟨st.nextClaimId, uid, cid, now, today⟩],
      nextClaimId := st.nextClaimId + 1 } with hstN
    have hcl : stN.claims =
        st.claims ++ [⟨st.nextClaimId, uid, cid, now, today⟩] := by
      rw [hstN]
    have hok : claim_code today now cid uid st =
        (.ok ⟨cid, code.remaining_uses - 1, false, true⟩, stN) := by
      simp [claim_code, hfind, hpos, hcrne, not_le.mpr hq1, hhc, hstN]
    have hfind1 : findCode stN cid =
        some { code with remaining_uses := code.remaining_uses - 1 } :=
      findCode_applyDecrement hfind (by rw [hstN])
    have hpos1 : ¬ code.remaining_uses - 1 ≤ 0 := by omega
    have hcnt : claimCount stN uid today = claimCount st uid today + 1 :=
      claimCount_claims_append_self hcl rfl rfl
    have hq2 : claimCount stN uid today < DAILY_CLAIM_LIMIT := by
      omega
    have hused : hasClaim stN uid cid = true :=
      hasClaim_claims_append_self hcl rfl rfl
    refine ⟨⟨cid, code.remaining_uses - 1, false, true⟩, stN, hok, ?_,
      { code with remaining_uses := code.remaining_uses - 1 }, hfind1, rfl⟩
    simp [claim_code, hfind1, hpos1, hcrne, not_le.mpr hq2, hused]

/-- Witness for C4 (amended), part 2: user `B` claims the fresh code of
`stW` twice; the first succeeds, the repeat observes `AlreadyClaimed`. -/
theorem C4_concurrent_claims_witness :
    2 ≤ cW.remaining_uses ∧
    (∃ r st₁, claim_code ("d1") 5 ("c1") ("B") stW = (.ok r, st₁) ∧
      claim_code ("d1") 5 ("c1") ("B") st₁ =
        (.error .AlreadyClaimed, st₁) ∧
      ∃ code', findCode st₁ ("c1") = some code' ∧
        code'.remaining_uses = cW.remaining_uses - 1) :=
  ⟨by decide,
    C4_concurrent_claims.2 ("d1") 5 ("c1") ("B") stW cW rfl (by decide)
      (by decide) (by decide) (by decide)⟩

/-- C5 fails on the code: a creator claiming their own *exhausted* code
observes `Exhausted`, not `SelfClaimForbidden`, because the
`remaining_uses <= 0` check runs first (main.py lines 269-273). -/
theorem C5_self_claim_counterexample :
    claim_code ("d1") 5 ("c1") ("A") stExh = (.error .Exhausted, stExh) ∧
    ApiError.Exhausted ≠ ApiError.SelfClaimForbidden :=
  ⟨by rfl, by decide⟩

/-- C5 (amended): a claim by the code's own creator fails with
`SelfClaimForbidden` whenever the code still has `remaining_uses > 0`;
on an exhausted code the Exhausted check fires first. -/
theorem C5_self_claim_amended (today : DateStr) (now : Rat) (cid : CodeId)
    (uid : UserId) (st : St) :
    ∀ code, findCode st cid = some code → code.creator_id = uid →
      0 < code.remaining_uses →
      claim_code today now cid uid st = (.error .SelfClaimForbidden, st) := by
  intro code h hcr hpos
  simp [claim_code, h, not_le.mpr hpos, hcr]

/-- Witness for C5 (amended): the creator `A` claims its own fresh code. -/
theorem C5_self_claim_amended_witness :
    claim_code ("d1") 5 ("c1") ("A") stW = (.error .SelfClaimForbidden, stW) :=
  C5_self_claim_amended ("d1") 5 ("c1") ("A") stW cW rfl rfl (by decide)

/-- C2: when a user who already holds a claim row for a code claims it
again and the request reaches the insert (the code is found, still has
uses, is not the user's own, and the user is under the daily quota),
the insert violates the (`user_id`, `code_id`) uniqueness constraint,
the whole unit is aborted with `AlreadyClaimed`, and the state — the
code's `remaining_uses` and the claims table — is exactly as before. -/
theorem C2_duplicate_claim_aborts (today : DateStr) (now : Rat)
    (cid : CodeId) (uid : UserId) (st : St) (r : ClaimResult) (st₁ : St)
    (h : claim_code today now cid uid st = (.ok r, st₁))
    (hrem : 0 < r.remainingUses)
    (hq : claimCount st₁ uid today < DAILY_CLAIM_LIMIT) :
    claim_code today now cid uid st₁ = (.error .AlreadyClaimed, st₁) := by
  obtain ⟨code, hfind, hpos, hcr, hq0, hhc, hr, hst⟩ := claim_code_ok_char h
  have hfind' : st.codes.find? (fun c => c.id == cid) = some code := hfind
  have hid : (code.id == cid) = true :=
    @List.find?_some CodeDB (fun c => c.id == cid) code st.codes hfind'
  have hfpres : ∀ c : CodeDB,
      ((fun c => if c.id == cid then
        { c with remaining_uses := c.remaining_uses - 1 } else c) c).id =
      c.id := by
    intro c
    by_cases hc : c.id == cid <;> simp [hc]
  have hfind₁ : findCode st₁ cid =
      some { code with remaining_uses := code.remaining_uses - 1 } := by
    show st₁.codes.find? (fun c => c.id == cid) = _
    have hcodes : st₁.codes = applyDecrement cid st.codes := by rw [hst]
    rw [hcodes]
    unfold applyDecrement
    rw [find?_map_id _ hfpres, hfind']
    have hideq : code.id = cid := by simpa using hid
    simp [hideq]
  have hclaims : st₁.claims =
      st.claims ++ [⟨st.nextClaimId, uid, cid, now, today⟩] := by rw [hst]
  have hused : hasClaim st₁ uid cid = true :=
    hasClaim_claims_append_self hclaims rfl rfl
  have hrem' : ¬ code.remaining_uses - 1 ≤ 0 := by
    have : r.remainingUses = code.remaining_uses - 1 := by rw [hr]
    omega
  simp [claim_code, hfind₁, hrem', hcr, not_le.mpr hq, hused]

/-- Witness for C2: user `B` claims the code of `stW`, then claims it
again; the repeat fails with `AlreadyClaimed` and changes nothing. -/
theorem C2_duplicate_claim_aborts_witness :
    claim_code ("d1") 5 ("c1") ("B")
      ⟨[⟨"c1", "AB1234 x:/CODE1", "AB1234 x:/CODE1", "A", 9, 0, "d1"⟩],
        [⟨1, "B", "c1", 5, "d1"⟩], 2, ⟨[], 0⟩⟩ =
      (.error .AlreadyClaimed,
        ⟨[⟨"c1", "AB1234 x:/CODE1", "AB1234 x:/CODE1", "A", 9, 0, "d1"⟩],
          [⟨1, "B", "c1", 5, "d1"⟩], 2, ⟨[], 0⟩⟩) :=
  C2_duplicate_claim_aborts ("d1") 5 ("c1") ("B") stW ⟨"c1", 9, false, true⟩
    ⟨[⟨"c1", "AB1234 x:/CODE1", "AB1234 x:/CODE1", "A", 9, 0, "d1"⟩],
      [⟨1, "B", "c1", 5, "d1"⟩], 2, ⟨[], 0⟩⟩
    (by rfl) (by decide) (by decide)

/-- C6 fails on the code: the post-quota check runs *before* format
validation (main.py lines 212-218), so a malformed submission from a
caller at the daily post limit fails with `PostQuotaExceeded`, not
`InvalidFormat` as the claim asserts. -/
theorem C6_create_order_counterexample :
    create_code ("d1") 0 ("x6") ("hello world") ("A") stQuota =
      (.error .PostQuotaExceeded, stQuota) ∧
    ApiError.PostQuotaExceeded ≠ ApiError.InvalidFormat :=
  ⟨by rfl, by decide⟩

/-- C6 (amended): a create request is processed in the order
post-quota check, then format validation, then the duplicate-core-code
check, then the store insert (which zeroes the cache timestamp); a 6th
post on a day with 5 existing posts fails with `PostQuotaExceeded`
whatever the content, a malformed submission from a caller under the
quota fails with `InvalidFormat`, and a submission whose extracted
`core_code` matches an existing code with `remaining_uses > 0` fails
with `DuplicateCoreCode`. -/
theorem C6_create_check_order (today : DateStr) (now : Rat) (id : CodeId)
    (content : String) (uid : UserId) (st : St) :
    (DAILY_POST_LIMIT ≤ postCount st uid today →
      create_code today now id content uid st =
        (.error .PostQuotaExceeded, st)) ∧
    (postCount st uid today < DAILY_POST_LIMIT →
      extract_core_code content = none →
      create_code today now id content uid st =
        (.error .InvalidFormat, st)) ∧
    (∀ core_code, postCount st uid today < DAILY_POST_LIMIT →
      extract_core_code content = some core_code →
      st.codes.any (fun c =>
        c.core_code == core_code && decide (0 < c.remaining_uses)) = true →
      create_code today now id content uid st =
        (.error .DuplicateCoreCode, st)) ∧
    (∀ core_code, postCount st uid today < DAILY_POST_LIMIT →
      extract_core_code content = some core_code →
      st.codes.any (fun c =>
        c.core_code == core_code && decide (0 < c.remaining_uses)) = false →
      st.codes.any (fun c => c.id == id) = false →
      create_code today now id content uid st =
        (.ok ⟨id, content, INITIAL_USES, now * 1000, true, false⟩,
          { st with
            codes := st.codes ++
              [⟨id, content, core_code, uid, INITIAL_USES, now, today⟩],
            cache := { st.cache with timestamp := 0 } })) := by
  refine ⟨fun hq => ?_, fun hq hfmt => ?_,
    fun core hq hfmt hdup => ?_, fun core hq hfmt hdup hid => ?_⟩
  · simp [create_code, hq]
  · simp [create_code, not_le.mpr hq, hfmt]
  · simp [create_code, not_le.mpr hq, hfmt, hdup]
  · simp [create_code, not_le.mpr hq, hfmt, hdup, hid]

/-- Witness for C6 (amended): with 5 posts already made today, a 6th
create request by the same user fails with `PostQuotaExceeded` even
though its content is well-formed. -/
theorem C6_create_check_order_witness :
    DAILY_POST_LIMIT ≤ postCount stQuota ("A") ("d1") ∧
    create_code ("d1") 0 ("x6") ("AB1234 x:/NEW1") ("A") stQuota =
      (.error .PostQuotaExceeded, stQuota) :=
  ⟨by decide,
    (C6_create_check_order ("d1") 0 ("x6") ("AB1234 x:/NEW1") ("A")
      stQuota).1 (by decide)⟩

theorem takeWhile_all_append {p : Char → Bool} {xs : List Char}
    (h : ∀ x ∈ xs, p x = true) (ys : List Char) :
    (xs ++ ys).takeWhile p = xs ++ ys.takeWhile p := by
  induction xs with
  | nil => simp
  | cons a l ih =>
    have ha : p a = true := h a (by simp)
    simp only [List.cons_append, List.takeWhile_cons, ha, if_true]
    rw [ih (fun x hx => h x (by simp [hx]))]

theorem dropWhile_all_append {p : Char → Bool} {xs : List Char}
    (h : ∀ x ∈ xs, p x = true) (ys : List Char) :
    (xs ++ ys).dropWhile p = ys.dropWhile p := by
  induction xs with
  | nil => simp
  | cons a l ih =>
    have ha : p a = true := h a (by simp)
    simp only [List.cons_append, List.dropWhile_cons, ha, if_true]
    exact ih (fun x hx => h x (by simp [hx]))

/-- Soundness of the anchored matcher: a match has the shape and is a
prefix of the input. -/
theorem coreCodeAt_sound {l m : List Char} (h : coreCodeAt l = some m) :
    IsCoreShape m ∧ ∃ t, l = m ++ t := by
  unfold coreCodeAt at h
  split at h
  case h_2 => exact absurd h (by simp)
  next u1 u2 d1 d2 d3 d4 sp rest =>
    split at h
    case isFalse => exact absurd h (by simp)
    next hheads =>
      simp only [Bool.and_eq_true] at hheads
      obtain ⟨⟨⟨⟨⟨⟨h1, h2⟩, h3⟩, h4⟩, h5⟩, h6⟩, h7⟩ := hheads
      split at h
      case h_2 => exact absurd h (by simp)
      next x xs rest3 hmid hdrop =>
        split at h
        case h_1 => exact absurd h (by simp)
        next t0 ts htail =>
          simp only [Option.some.injEq] at h
          subst h
          constructor
          · refine ⟨u1, u2, d1, d2, d3, d4, sp, rest.takeWhile isAlnumC,
              t0 :: ts, by simp, h1, h2, h3, h4, h5, h6, h7, ?_, ?_, ?_, ?_⟩
            · rw [hmid]
              simp
            · intro c hc
              exact List.mem_takeWhile_imp hc
            · simp
            · intro c hc
              rw [← htail] at hc
              exact List.mem_takeWhile_imp hc
          · refine ⟨rest3.dropWhile isUpperDigit, ?_⟩
            have hr : rest = rest.takeWhile isAlnumC ++
                (':' :: '/' :: rest3) := by
              rw [← hdrop]
              exact (List.takeWhile_append_dropWhile isAlnumC rest).symm
            have h3' : rest3 = (t0 :: ts) ++ rest3.dropWhile isUpperDigit := by
              rw [← htail]
              exact (List.takeWhile_append_dropWhile isUpperDigit rest3).symm
            conv_lhs => rw [hr]
            conv_lhs => rw [h3']
            simp

/-- Completeness of the anchored matcher: at the start of any
shape-matching substring the matcher succeeds. -/
theorem coreCodeAt_isSome_of_shape {w : List Char} (hw : IsCoreShape w)
    (t : List Char) : (coreCodeAt (w ++ t)).isSome = true := by
  obtain ⟨u1, u2, d1, d2, d3, d4, sp, mid, tail, hweq, h1, h2, h3, h4, h5,
    h6, h7, hmidne, hmid, htailne, htail⟩ := hw
  obtain ⟨m0, mrest, hm⟩ := List.exists_cons_of_ne_nil hmidne
  obtain ⟨t0, trest, ht⟩ := List.exists_cons_of_ne_nil htailne
  subst hweq
  have hassoc : (mid ++ ':' :: '/' :: tail) ++ t =
      mid ++ ':' :: '/' :: (tail ++ t) := by simp
  have hcolon : isAlnumC ':' = false := by decide
  have htake : (mid ++ ':' :: '/' :: (tail ++ t)).takeWhile isAlnumC =
      mid := by
    rw [takeWhile_all_append hmid]
    simp [List.takeWhile_cons, hcolon]
  have hdrop : (mid ++ ':' :: '/' :: (tail ++ t)).dropWhile isAlnumC =
      ':' :: '/' :: (tail ++ t) := by
    rw [dropWhile_all_append hmid]
    simp [List.dropWhile_cons, hcolon]
  have htake2 : (tail ++ t).takeWhile isUpperDigit =
      tail ++ t.takeWhile isUpperDigit := takeWhile_all_append htail t
  show (coreCodeAt (u1 :: u2 :: d1 :: d2 :: d3 :: d4 :: sp ::
    ((mid ++ ':' :: '/' :: tail) ++ t))).isSome = true
  rw [hassoc]
  have hcond : (isUpperAZ u1 && isUpperAZ u2 && isDigitNd d1 &&
      isDigitNd d2 && isDigitNd d3 && isDigitNd d4 && isWsC sp) = true := by
    simp [h1, h2, h3, h4, h5, h6, h7]
  simp only [coreCodeAt, hcond, if_true]
  rw [htake, hdrop, hm]
  have ht0 : isUpperDigit t0 = true := htail t0 (by rw [ht]; simp)
  simp [htake2, ht, List.takeWhile_cons, ht0]

/-- A successful search returns a shape-matching substring. -/
theorem coreCodeSearch_some_shape :
    ∀ l m : List Char, coreCodeSearch l = some m →
      IsCoreShape m ∧ ∃ p t, l = p ++ m ++ t := by
  intro l
  induction l with
  | nil => intro m h; simp [coreCodeSearch] at h
  | cons c cs ih =>
    intro m h
    unfold coreCodeSearch at h
    cases hat : coreCodeAt (c :: cs) with
    | some m0 =>
      rw [hat] at h
      simp only [Option.some.injEq] at h
      subst h
      obtain ⟨hshape, t, hpre⟩ := coreCodeAt_sound hat
      exact ⟨hshape, [], t, by simpa using hpre⟩
    | none =>
      rw [hat] at h
      obtain ⟨hshape, p, t, he⟩ := ih m h
      exact ⟨hshape, c :: p, t, by simp [he]⟩

/-- If a shape-matching substring occurs anywhere, the search succeeds. -/
theorem coreCodeSearch_isSome_of_shape {w : List Char} (hw : IsCoreShape w) :
    ∀ p t : List Char, (coreCodeSearch (p ++ (w ++ t))).isSome = true := by
  intro p
  induction p with
  | nil =>
    intro t
    have hcons : ∃ c cs, w ++ t = c :: cs := by
      obtain ⟨u1, u2, d1, d2, d3, d4, sp, mid, tail, hweq, -⟩ := hw
      rw [hweq]
      exact ⟨u1, _, rfl⟩
    obtain ⟨c, cs, hcs⟩ := hcons
    rw [List.nil_append, hcs]
    unfold coreCodeSearch
    cases hat : coreCodeAt (c :: cs) with
    | some m0 => simp
    | none =>
      have := coreCodeAt_isSome_of_shape hw t
      rw [hcs, hat] at this
      simp at this
  | cons a p ih =>
    intro t
    show (coreCodeSearch (a :: (p ++ (w ++ t)))).isSome = true
    unfold coreCodeSearch
    cases hat : coreCodeAt (a :: (p ++ (w ++ t))) with
    | some m0 => simp
    | none => exact ih t

/-- C7 fails on the code: the seventh pattern position is `\s`, not a
literal space.  `"AB1234\tx:/C9"` contains no substring of the claimed
shape (it has no space at all), so by the claim it should fail with
`InvalidFormat`, yet the code extracts a core code from it. -/
theorem C7_format_counterexample :
    extract_core_code ("AB1234\tx:/C9") = some ("AB1234\tx:/C9") ∧
    ¬ ∃ w, IsCoreShapeSpace w ∧ ∃ p t,
      String.data ("AB1234\tx:/C9") = p ++ w ++ t := by
  refine ⟨by decide, ?_⟩
  rintro ⟨w, hw, p, t, he⟩
  obtain ⟨u1, u2, d1, d2, d3, d4, mid, tail, hweq, -⟩ := hw
  have hsp : ' ' ∈ w := by
    rw [hweq]
    simp
  have hmem : ' ' ∈ String.data ("AB1234\tx:/C9") := by
    rw [he]
    simp [hsp]
  exact absurd hmem (by decide)

/-- C7 (amended): the format validator is a pure function of the
content; it extracts the first (leftmost, greedy) substring of the
shape `[A-Z]{2}\d{4}\s[a-zA-Z0-9]+:/[A-Z0-9]+` — where, as in a
Python 3 `str` pattern, `\s` is any Unicode whitespace character (not
only a literal space) and `\d` any Unicode decimal digit — and fails
with `InvalidFormat` if and only if no substring of that shape exists.
`"AB1234 x:/CODE1"` yields itself as core code, `"hello world"`
fails, and the Unicode semantics is exercised positively: a no-break
space separator and Arabic-Indic digits are both accepted. -/
theorem C7_format_validator :
    extract_core_code ("AB1234 x:/CODE1") = some ("AB1234 x:/CODE1") ∧
    extract_core_code ("hello world") = none ∧
    extract_core_code ("AB1234\u00A0x:/C9") =
      some ("AB1234\u00A0x:/C9") ∧
    extract_core_code ("AB\u0661\u0662\u0663\u0664 x:/C9") =
      some ("AB\u0661\u0662\u0663\u0664 x:/C9") ∧
    ∀ content : String, extract_core_code content = none ↔
      ¬ ∃ w, IsCoreShape w ∧ ∃ p t, content.data = p ++ w ++ t := by
  refine ⟨by decide, by decide, by decide, by decide, fun content => ?_⟩
  constructor
  · rintro h ⟨w, hw, p, t, he⟩
    have hs : (coreCodeSearch content.data).isSome = true := by
      rw [he, List.append_assoc]
      exact coreCodeSearch_isSome_of_shape hw p t
    unfold extract_core_code at h
    cases hsc : coreCodeSearch content.data with
    | none =>
      rw [hsc] at hs
      simp at hs
    | some m =>
      rw [hsc] at h
      simp at h
  · intro h
    cases hs : coreCodeSearch content.data with
    | none => simp [extract_core_code, hs]
    | some m =>
      exfalso
      apply h
      obtain ⟨hshape, p, t, he⟩ := coreCodeSearch_some_shape content.data m hs
      exact ⟨m, hshape, p, t, he⟩

/-- Witness for C7 (amended): the iff instantiated at
`"hello world"`, whose failure certifies that no shape-matching
substring occurs in it. -/
theorem C7_format_validator_witness :
    ¬ ∃ w, IsCoreShape w ∧ ∃ p t,
      String.data ("hello world") = p ++ w ++ t :=
  (C7_format_validator.2.2.2.2 ("hello world")).mp (by decide)

/-- C8: the active-code listing consists exactly of codes with
`remaining_uses > 0`: it is a permutation of the first 100 rows of the
newest-first ordering of the active codes (so of all active codes when
there are at most 100), is returned sorted ascending by creation time,
never contains a code with `remaining_uses <= 0`, and anything active
that was cut off by the cap is no newer than anything listed. -/
theorem C8_listing_semantics (codes : List CodeDB) :
    (∀ c ∈ listActive codes, 0 < c.remaining_uses) ∧
    List.Pairwise (fun a b => a.created_at ≤ b.created_at)
      (listActive codes) ∧
    List.Perm (listActive codes)
      (((codes.filter (fun c => decide (0 < c.remaining_uses))).mergeSort
        (fun a b => decide (b.created_at ≤ a.created_at))).take
          MAX_LIST_LIMIT) ∧
    (listActive codes).length =
      min (codes.filter (fun c => decide (0 < c.remaining_uses))).length
        MAX_LIST_LIMIT ∧
    ((codes.filter (fun c => decide (0 < c.remaining_uses))).length ≤
        MAX_LIST_LIMIT →
      List.Perm (listActive codes)
        (codes.filter (fun c => decide (0 < c.remaining_uses)))) ∧
    (∀ cx ∈ codes.filter (fun c => decide (0 < c.remaining_uses)),
      cx ∉ listActive codes →
      ∀ c ∈ listActive codes, cx.created_at ≤ c.created_at) := by
  have htransAsc : ∀ a b c : CodeDB,
      decide (a.created_at ≤ b.created_at) = true →
      decide (b.created_at ≤ c.created_at) = true →
      decide (a.created_at ≤ c.created_at) = true := by
    intro a b c h1 h2
    exact decide_eq_true (le_trans (of_decide_eq_true h1) (of_decide_eq_true h2))
  have htotalAsc : ∀ a b : CodeDB,
      (decide (a.created_at ≤ b.created_at) ||
        decide (b.created_at ≤ a.created_at)) = true := by
    intro a b
    rcases le_total a.created_at b.created_at with h | h <;> simp [h]
  have htransDesc : ∀ a b c : CodeDB,
      decide (b.created_at ≤ a.created_at) = true →
      decide (c.created_at ≤ b.created_at) = true →
      decide (c.created_at ≤ a.created_at) = true := by
    intro a b c h1 h2
    exact decide_eq_true (le_trans (of_decide_eq_true h2) (of_decide_eq_true h1))
  have htotalDesc : ∀ a b : CodeDB,
      (decide (b.created_at ≤ a.created_at) ||
        decide (a.created_at ≤ b.created_at)) = true := by
    intro a b
    rcases le_total a.created_at b.created_at with h | h <;> simp [h]
  unfold listActive
  set A := codes.filter (fun c => decide (0 < c.remaining_uses)) with hA
  set D := A.mergeSort (fun a b => decide (b.created_at ≤ a.created_at)) with hD
  set T := D.take MAX_LIST_LIMIT with hT
  have hpermT : List.Perm
      (T.mergeSort (fun a b => decide (a.created_at ≤ b.created_at))) T :=
    List.mergeSort_perm _ _
  have hpermD : List.Perm D A := List.mergeSort_perm _ _
  have hsubT : T ⊆ D := by
    rw [hT]
    exact List.take_subset _ _
  have hmemA : ∀ c ∈ A, 0 < c.remaining_uses := by
    intro c hc
    rw [hA] at hc
    exact of_decide_eq_true (List.mem_filter.mp hc).2
  refine ⟨?_, ?_, hpermT, ?_, ?_, ?_⟩
  · intro c hc
    exact hmemA c (hpermD.subset (hsubT (hpermT.subset hc)))
  · exact (@List.sorted_mergeSort CodeDB
      (fun a b => decide (a.created_at ≤ b.created_at))
      htransAsc htotalAsc T).imp (fun h => of_decide_eq_true h)
  · rw [List.length_mergeSort, hT, List.length_take, hD,
      List.length_mergeSort]
    exact Nat.min_comm _ _
  · intro hle
    have hDlen : D.length ≤ MAX_LIST_LIMIT := by
      rw [hD, List.length_mergeSort]
      exact hle
    have hTD : T = D := by
      rw [hT]
      exact List.take_of_length_le hDlen
    exact hpermT.trans (hTD ▸ hpermD)
  · intro cx hcxA hcxnot c hc
    have hsD : List.Pairwise (fun a b => b.created_at ≤ a.created_at) D := by
      rw [hD]
      exact (@List.sorted_mergeSort CodeDB
        (fun a b => decide (b.created_at ≤ a.created_at))
        htransDesc htotalDesc A).imp (fun h => of_decide_eq_true h)
    have hsplit : List.Pairwise (fun a b => b.created_at ≤ a.created_at)
        (T ++ D.drop MAX_LIST_LIMIT) := by
      rw [hT, List.take_append_drop]
      exact hsD
    have hbound := (List.pairwise_append.mp hsplit).2.2
    have hcxD : cx ∈ D := hpermD.mem_iff.mpr hcxA
    have hcxT : cx ∉ T := fun hmem => hcxnot (hpermT.mem_iff.mpr hmem)
    have hcxdrop : cx ∈ D.drop MAX_LIST_LIMIT := by
      have : cx ∈ T ++ D.drop MAX_LIST_LIMIT := by
        rw [hT, List.take_append_drop]
        exact hcxD
      rcases List.mem_append.mp this with h | h
      · exact absurd h hcxT
      · exact h
    exact hbound c (hpermT.subset hc) cx hcxdrop

/-- Witness for C8: a one-code store with a live code lists exactly its
active codes. -/
theorem C8_listing_semantics_witness :
    ([cW].filter (fun c => decide (0 < c.remaining_uses))).length ≤
      MAX_LIST_LIMIT ∧
    List.Perm (listActive [cW])
      ([cW].filter (fun c => decide (0 < c.remaining_uses))) :=
  ⟨by decide, (C8_listing_semantics [cW]).2.2.2.2.1 (by decide)⟩

/-- C9: the list cache is a read-through TTL cache.  A read with
`now - timestamp < 3.0` returns the cached snapshot unchanged; an
expired read recomputes the snapshot from the store and stamps it with
`now`; a successful creation forces `timestamp = 0`, so (for any
`now ≥ TTL`) the next read misses and recomputes from the store. -/
theorem C9_list_cache_ttl (now : Rat) (uid : UserId) (st : St) :
    (now - st.cache.timestamp < CACHE_TTL →
      get_codes now uid st = ((st.cache.data).map (personalize st uid), st)) ∧
    (¬ now - st.cache.timestamp < CACHE_TTL →
      get_codes now uid st =
        (((listActive st.codes).map cacheRow).map (personalize st uid),
          { st with cache := ⟨(listActive st.codes).map cacheRow, now⟩ })) ∧
    (∀ today nowc id content uidc r st',
      create_code today nowc id content uidc st = (.ok r, st') →
      st'.cache.timestamp = 0 ∧
      (CACHE_TTL ≤ now →
        (get_codes now uid st').2.cache =
          ⟨(listActive st'.codes).map cacheRow, now⟩)) := by
  refine ⟨fun h => ?_, fun h => ?_,
    fun today nowc id content uidc r st' h => ?_⟩
  · simp [get_codes, h]
  · simp [get_codes, h]
  · obtain ⟨core, _, _, _, _, hst⟩ := create_code_ok_char h
    have ht : st'.cache.timestamp = 0 := by rw [hst]
    refine ⟨ht, fun hle => ?_⟩
    have hmiss : ¬ now - st'.cache.timestamp < CACHE_TTL := by
      rw [ht, sub_zero]
      exact not_lt.mpr hle
    simp [get_codes, hmiss]

/-- Witness for C9: in `stW` the cache was stamped `0`, so a read at
`now = 1` is a hit and returns the (empty) snapshot unchanged. -/
theorem C9_list_cache_ttl_witness :
    (1 : Rat) - stW.cache.timestamp < CACHE_TTL ∧
    get_codes 1 ("B") stW = ([], stW) := by
  have hlt : (1 : Rat) - stW.cache.timestamp < CACHE_TTL := by
    norm_num [stW, CACHE_TTL]
  exact ⟨hlt, ((C9_list_cache_ttl 1 ("B") stW).1 hlt).trans (by rfl)⟩

/-- C10: create is atomic on failure — every failing create request
(`InvalidFormat`, `PostQuotaExceeded`, `DuplicateCoreCode`, or the
uniqueness violation at commit) leaves the store and the list cache
exactly as they were; only a successful commit appends the new row and
zeroes the cache timestamp. -/
theorem C10_create_atomic_on_failure :
    (∀ today now id content uid st e st',
      create_code today now id content uid st = (.error e, st') →
      st' = st) ∧
    (∀ today now id content uid st r st',
      create_code today now id content uid st = (.ok r, st') →
      ∃ newCode, st'.codes = st.codes ++ [newCode] ∧
        st'.claims = st.claims ∧ st'.cache.data = st.cache.data ∧
        st'.cache.timestamp = 0) := by
  constructor
  · intro _ _ _ _ _ _ _ _ h
    exact create_code_error_state h
  · intro today now id content uid st r st' h
    obtain ⟨core, _, _, _, _, hst⟩ := create_code_ok_char h
    exact ⟨_, by rw [hst], by rw [hst], by rw [hst], by rw [hst]⟩

/-- Witness for C10: a malformed submission fails (`InvalidFormat`) and
leaves the state untouched. -/
theorem C10_create_atomic_on_failure_witness :
    create_code ("d1") 0 ("x1") ("hello world") ("B") stW =
      (.error .InvalidFormat, stW) ∧ stW = stW :=
  ⟨by rfl,
    C10_create_atomic_on_failure.1 ("d1") 0 ("x1") ("hello world") ("B") stW
      .InvalidFormat stW (by rfl)⟩

end Yuanbao
